import Mathlib

/-!
A shallow embedding of the registry-access core of `jgsqware/registry-ui`
(`src/main.go`): the HTTP request cycle `doRequest` with its single
401-triggered authentication retry, and the catalog/tag aggregation
`GetCatalog` / `GetTags`.

The network is modelled as an oracle `World`: a list of outcomes, one
consumed per HTTP request actually executed, plus a list of booleans, one
consumed per `auth.Authenticate` call (`true` = authentication succeeded).
Request construction (`http.NewRequest`, an external `net/http` concern) is
modelled by a validity oracle `uv : String -> Bool` on the full URL.
`log.Fatalf` (process exit) is modelled as the `Res.fatal` outcome carrying
the log message.  Response bodies are modelled post-serialization as the
shapes `json.Unmarshal` distinguishes: not-JSON, a `{"repositories": ...}`
object, or a `{"name": ..., "tags": ...}` object (Go's decoder ignores
unknown fields and leaves missing fields at their zero values).

Every function that has a counterpart in `src/main.go` keeps its name.
-/

namespace RegistryUI

/-- An HTTP response body as `json.Unmarshal` sees it: `bad` is a body that
is not valid JSON, `cat` a body of shape `{"repositories": [string]}`
(the `_catalog` struct of the source), `img` a body of shape
`{"name": string, "tags": [string]}` (the `image` struct of the source). -/
inductive Body where
  | bad : Body
  | cat (repositories : List String) : Body
  | img (name : String) (tags : List String) : Body
deriving DecidableEq, Repr

/-- The outcome of executing one HTTP request: a transport failure
(DNS/connect error, the `err != nil` branch after `Do`), or a response
with a status code and a body. -/
inductive NetOutcome where
  | netErr : NetOutcome
  | resp (status : Nat) (body : Body) : NetOutcome
deriving DecidableEq, Repr

/-- The external world: responses consumed in order, one per request the
client executes, and `auth.Authenticate` outcomes consumed in order, one
per authentication attempt. -/
structure World where
  responses : List NetOutcome
  auths : List Bool
deriving DecidableEq, Repr

/-- The outcome of a core operation: `fatal msg` models abnormal process
termination — a `log.Fatalf` exit carrying the log message, or a runtime
panic carrying the panic message — `ok` a normal return. -/
inductive Res (α : Type) where
  | fatal (msg : String) : Res α
  | ok (val : α) : Res α
deriving DecidableEq, Repr

/-- The `image` struct of the source (`Name`/`Tags`, filled by
`json.Unmarshal` from a tags-list response). -/
structure image where
  Name : String
  Tags : List String
deriving DecidableEq, Repr

/-- The value of the `Repositories` field of `catalog`: the Go
`map[string][]image` modelled as an association list in key-insertion
order (first-match lookup). -/
abbrev Repos := List (String × List image)

/-- The `catalog` struct of the source. -/
structure catalog where
  AccountMgmt : Bool
  Registry : String
  Repositories : Repos
deriving DecidableEq, Repr

/-- `json.Unmarshal(b, &d)` for `d : _catalog`: fails on a non-JSON body,
reads the `repositories` field of a catalog-shaped body, and on any other
JSON object leaves the field at its zero value (empty list). -/
def decodeCatalog : Body → Option (List String)
  | Body.bad => none
  | Body.cat rs => some rs
  | Body.img _ _ => some []

/-- `json.Unmarshal(b, &i)` for `i : image`: fails on a non-JSON body,
reads `name`/`tags` from an image-shaped body, and on any other JSON
object leaves both fields at their zero values. -/
def decodeImage : Body → Option image
  | Body.bad => none
  | Body.cat _ => some ⟨"", []⟩
  | Body.img n ts => some ⟨n, ts⟩

/-- The URL built at the call site of `doRequest` in `GetCatalog`:
`"http://" + registryURI + "/v2/_catalog"`. -/
def catURI (registryURI : String) : String :=
  "http://" ++ registryURI ++ "/v2/_catalog"

/-- The URL built at the call site of `doRequest` in `GetTags`:
`"http://" + registryURI + "/v2/" + imageName + "/tags/list"`. -/
def tagURI (registryURI imageName : String) : String :=
  "http://" ++ registryURI ++ "/v2/" ++ imageName ++ "/tags/list"

/-- `doRequest` from `src/main.go`.  Returns the result, the world after
the call, and the trace of URLs of the requests the call executed.

Faithful details: the error of `http.NewRequest` is shadowed by the
`res, err := http.DefaultClient.Do(req)` line, so when construction fails
(`uv uri = false`) the code reaches `Do` with a nil request; `Do`
dereferences the nil request and the process dies with a runtime panic
before any network I/O — and before the `err != nil` check, so the
discarded construction error is never surfaced through `log.Fatalf`.
A 401 first response triggers exactly one `auth.Authenticate`
call and one re-send; the second response's status is never inspected, and
the body of whatever response is current after the optional retry is
returned unconditionally. -/
def doRequest (uv : String → Bool) (method uri : String) (w : World) :
    Res Body × World × List String :=
  let _ := method
  if uv uri then
    match w.responses with
    | [] => (Res.fatal "retrieving catalog", ⟨[], w.auths⟩, [uri])
    | NetOutcome.netErr :: rest => (Res.fatal "retrieving catalog", ⟨rest, w.auths⟩, [uri])
    | NetOutcome.resp st b :: rest =>
      if st = 401 then
        match w.auths with
        | [] => (Res.fatal "authenticating", ⟨rest, []⟩, [uri])
        | aok :: arest =>
          if aok then
            match rest with
            | [] => (Res.fatal "retrieving catalog", ⟨[], arest⟩, [uri, uri])
            | NetOutcome.netErr :: rest2 =>
              (Res.fatal "retrieving catalog", ⟨rest2, arest⟩, [uri, uri])
            | NetOutcome.resp _ b2 :: rest2 => (Res.ok b2, ⟨rest2, arest⟩, [uri, uri])
          else (Res.fatal "authenticating", ⟨rest, arest⟩, [uri])
      else (Res.ok b, ⟨rest, w.auths⟩, [uri])
  else
    (Res.fatal "panic: runtime error: invalid memory address or nil pointer dereference",
     w, [])

/-- The spec's `RegistryClient.Get(path)`: both call sites of `doRequest`
pass `"http://" + registryURI + path`, so `Get` is that composition. -/
def Get (uv : String → Bool) (registryURI path : String) (w : World) :
    Res Body × World × List String :=
  doRequest uv "GET" ("http://" ++ registryURI ++ path) w

/-- `GetTags` from `src/main.go`: one `doRequest` against the tags-list
URL, then `json.Unmarshal` into `image`
(decode failure is `log.Fatalf("marshalling result: err")`). -/
def GetTags (uv : String → Bool) (registryURI imageName : String) (w : World) :
    Res image × World × List String :=
  match doRequest uv "GET" (tagURI registryURI imageName) w with
  | (Res.fatal e, w', tr) => (Res.fatal e, w', tr)
  | (Res.ok b, w', tr) =>
    match decodeImage b with
    | none => (Res.fatal "marshalling result: err", w', tr)
    | some i => (Res.ok i, w', tr)

/-- The grouping key of the loop body of `GetCatalog`:
`strings.Split(repository, "/")[0]` when `strings.Contains(repository, "/")`,
the sentinel `"-"` otherwise.  The first element of a split on `"/"` is the
longest slash-free leading segment, written here with `takeWhile` on the
character list of the string. -/
def nsKey (repository : String) : String :=
  if repository.data.contains '/' then
    ⟨repository.data.takeWhile (fun c => c != '/')⟩
  else "-"

/-- `c.Repositories[k] = append(c.Repositories[k], i)` on the
association-list model of the Go map: append to the entry of `k`,
creating the entry when absent. -/
def insertImage (m : Repos) (k : String) (i : image) : Repos :=
  match m with
  | [] => [(k, [i])]
  | (k', is) :: rest =>
    if k' = k then (k', is ++ [i]) :: rest else (k', is) :: insertImage rest k i

/-- The `for _, repository := range d.Repositories` loop of `GetCatalog`:
fetch the tags of each repository in order, grouping each resulting image
under its namespace key; any `log.Fatalf` inside `GetTags` stops the
process (and hence the loop) immediately. -/
def fetchLoop (uv : String → Bool) (registryURI : String) (repos : List String)
    (w : World) (m : Repos) : Res Repos × World × List String :=
  match repos with
  | [] => (Res.ok m, w, [])
  | r :: rest =>
    match GetTags uv registryURI r w with
    | (Res.fatal e, w', tr) => (Res.fatal e, w', tr)
    | (Res.ok i, w', tr) =>
      match fetchLoop uv registryURI rest w' (insertImage m (nsKey r) i) with
      | (res, w'', tr') => (res, w'', tr ++ tr')

/-- `GetCatalog` from `src/main.go`: fetch `/v2/_catalog`, decode it into
`_catalog` (decode failure is `log.Fatalf("marshalling result: err")`),
then run the grouping loop starting from the empty map, stamping the
catalog with the registry URI and the account-management flag. -/
def GetCatalog (uv : String → Bool) (registryURI : String) (acct : Bool) (w : World) :
    Res catalog × World × List String :=
  match doRequest uv "GET" (catURI registryURI) w with
  | (Res.fatal e, w', tr) => (Res.fatal e, w', tr)
  | (Res.ok b, w', tr) =>
    match decodeCatalog b with
    | none => (Res.fatal "marshalling result: err", w', tr)
    | some repos =>
      match fetchLoop uv registryURI repos w' [] with
      | (Res.fatal e, w'', tr') => (Res.fatal e, w'', tr ++ tr')
      | (Res.ok m, w'', tr') => (Res.ok ⟨acct, registryURI, m⟩, w'', tr ++ tr')

/-! Pure observers of the grouped map, used to state the claims. -/

/-- First-match lookup in the association-list model of the Go map,
defaulting to the empty image list. -/
def imagesAt (m : Repos) (k : String) : List image :=
  match m with
  | [] => []
  | (k', is) :: rest => if k' = k then is else imagesAt rest k

/-- Total number of images over all keys of the map. -/
def totalImages (m : Repos) : Nat :=
  match m with
  | [] => 0
  | (_, is) :: rest => is.length + totalImages rest

/-- The keys of the map, in insertion order. -/
def keys (m : Repos) : List String := m.map Prod.fst

/-- The pure denotation of the grouping loop: fold `insertImage` over
already-fetched (repository, image) pairs. -/
def groupImages (ps : List (String × image)) (m : Repos) : Repos :=
  match ps with
  | [] => m
  | (r, i) :: rest => groupImages rest (insertImage m (nsKey r) i)

end RegistryUI

namespace RegistryUI

lemma keys_nil : keys [] = [] := rfl

lemma keys_cons (k : String) (is : List image) (rest : Repos) :
    keys ((k, is) :: rest) = k :: keys rest := rfl

lemma imagesAt_insertImage_self (m : Repos) (k : String) (i : image) :
    imagesAt (insertImage m k i) k = imagesAt m k ++ [i] := by
  induction m with
  | nil => simp [insertImage, imagesAt]
  | cons p rest ih =>
    obtain ⟨k', is⟩ := p
    by_cases h : k' = k
    · simp [insertImage, imagesAt, h]
    · simp [insertImage, imagesAt, h, ih]

lemma imagesAt_insertImage_ne (m : Repos) (k k' : String) (i : image) (h : k' ≠ k) :
    imagesAt (insertImage m k i) k' = imagesAt m k' := by
  have h2 : ¬(k = k') := fun e => h e.symm
  induction m with
  | nil => simp [insertImage, imagesAt, h2]
  | cons p rest ih =>
    obtain ⟨k'', is⟩ := p
    by_cases hk : k'' = k
    · subst hk
      simp [insertImage, imagesAt, h2]
    · by_cases hk' : k'' = k'
      · simp [insertImage, imagesAt, hk, hk', h]
      · simp [insertImage, imagesAt, hk, hk', ih]

lemma totalImages_insertImage (m : Repos) (k : String) (i : image) :
    totalImages (insertImage m k i) = totalImages m + 1 := by
  induction m with
  | nil => simp [insertImage, totalImages]
  | cons p rest ih =>
    obtain ⟨k', is⟩ := p
    by_cases h : k' = k
    · simp [insertImage, totalImages, h]
      omega
    · simp [insertImage, totalImages, h, ih]
      omega

lemma keys_insertImage (m : Repos) (k : String) (i : image) :
    keys (insertImage m k i) = if k ∈ keys m then keys m else keys m ++ [k] := by
  induction m with
  | nil => simp [insertImage, keys]
  | cons p rest ih =>
    obtain ⟨k', is⟩ := p
    by_cases h : k' = k
    · subst h
      simp [insertImage, keys]
    · have h2 : ¬(k = k') := fun e => h e.symm
      have hins : insertImage ((k', is) :: rest) k i = (k', is) :: insertImage rest k i := by
        simp [insertImage, h]
      rw [hins, keys_cons, ih, keys_cons]
      by_cases hm : k ∈ keys rest
      · simp [hm, h2]
      · simp [hm, h2]

lemma keys_nodup_insertImage (m : Repos) (k : String) (i : image)
    (h : (keys m).Nodup) : (keys (insertImage m k i)).Nodup := by
  rw [keys_insertImage]
  by_cases hm : k ∈ keys m
  · simp [hm, h]
  · simp only [hm, if_false]
    exact List.Nodup.append h (List.nodup_singleton k)
      (by simp [List.disjoint_singleton, hm])

end RegistryUI

namespace RegistryUI

lemma imagesAt_groupImages (ps : List (String × image)) :
    ∀ (m : Repos) (k : String),
      imagesAt (groupImages ps m) k
        = imagesAt m k ++ (ps.filter (fun p => nsKey p.1 == k)).map Prod.snd := by
  induction ps with
  | nil => intro m k; simp [groupImages]
  | cons p ps ih =>
    intro m k
    obtain ⟨r, i⟩ := p
    by_cases h : nsKey r = k
    · subst h
      simp only [groupImages, List.filter_cons, beq_self_eq_true, if_true, List.map_cons]
      rw [ih, imagesAt_insertImage_self]
      simp
    · have hb : (nsKey r == k) = false := by simp [h]
      simp only [groupImages, List.filter_cons, hb]
      rw [ih, imagesAt_insertImage_ne _ _ _ _ (fun e => h e.symm)]
      simp

lemma totalImages_groupImages (ps : List (String × image)) :
    ∀ m : Repos, totalImages (groupImages ps m) = totalImages m + ps.length := by
  induction ps with
  | nil => intro m; simp [groupImages]
  | cons p ps ih =>
    intro m
    obtain ⟨r, i⟩ := p
    simp only [groupImages, List.length_cons]
    rw [ih, totalImages_insertImage]
    omega

lemma keys_nodup_groupImages (ps : List (String × image)) :
    ∀ m : Repos, (keys m).Nodup → (keys (groupImages ps m)).Nodup := by
  induction ps with
  | nil => intro m h; simpa [groupImages] using h
  | cons p ps ih =>
    intro m h
    obtain ⟨r, i⟩ := p
    exact ih _ (keys_nodup_insertImage _ _ _ h)

lemma zip_filter_length (rs : List String) :
    ∀ (is : List image) (k : String), rs.length = is.length →
      (((rs.zip is).filter (fun p => nsKey p.1 == k)).map Prod.snd).length
        = (rs.filter (fun r => nsKey r == k)).length := by
  induction rs with
  | nil => intro is k _; simp
  | cons r rs ih =>
    intro is k hlen
    cases is with
    | nil => simp at hlen
    | cons i is =>
      simp only [List.zip_cons_cons, List.filter_cons]
      by_cases h : nsKey r = k
      · simp only [h, beq_self_eq_true, if_true, List.map_cons, List.length_cons]
        rw [ih is k (by simpa using hlen)]
      · have hb : (nsKey r == k) = false := by simp [h]
        simp only [hb, if_false]
        exact ih is k (by simpa using hlen)

end RegistryUI

namespace RegistryUI

lemma getTags_direct (uv : String → Bool) (ru nm : String) (n : String) (ts : List String)
    (rest : List NetOutcome) (auths : List Bool) (h : uv (tagURI ru nm) = true) :
    GetTags uv ru nm ⟨NetOutcome.resp 200 (Body.img n ts) :: rest, auths⟩
      = (Res.ok ⟨n, ts⟩, ⟨rest, auths⟩, [tagURI ru nm]) := by
  simp [GetTags, doRequest, h, decodeImage]

lemma fetchLoop_seq (repos : List String) :
    ∀ (imgs : List image) (uv : String → Bool) (ru : String)
      (rest : List NetOutcome) (auths : List Bool) (m : Repos),
      imgs.length = repos.length →
      (∀ r ∈ repos, uv (tagURI ru r) = true) →
      fetchLoop uv ru repos
          ⟨(imgs.map fun i => NetOutcome.resp 200 (Body.img i.Name i.Tags)) ++ rest, auths⟩ m
        = (Res.ok (groupImages (repos.zip imgs) m), ⟨rest, auths⟩, repos.map (tagURI ru)) := by
  induction repos with
  | nil =>
    intro imgs uv ru rest auths m hlen _
    cases imgs with
    | nil => simp [fetchLoop, groupImages]
    | cons i is => simp at hlen
  | cons r rs ih =>
    intro imgs uv ru rest auths m hlen hall
    cases imgs with
    | nil => simp at hlen
    | cons i is =>
      have hr : uv (tagURI ru r) = true := hall r (by simp)
      have hrec := ih is uv ru rest auths (insertImage m (nsKey r) i)
        (by simpa using hlen) (fun r' hr' => hall r' (by simp [hr']))
      simp only [List.map_cons, List.cons_append] at hrec ⊢
      rw [fetchLoop, getTags_direct uv ru r i.Name i.Tags _ auths hr]
      simp only [show (⟨i.Name, i.Tags⟩ : image) = i from rfl]
      rw [hrec]
      simp [groupImages, List.zip]

lemma getCatalog_seq (uv : String → Bool) (ru : String) (acct : Bool)
    (repos : List String) (imgs : List image)
    (rest : List NetOutcome) (auths : List Bool)
    (hlen : imgs.length = repos.length)
    (h1 : uv (catURI ru) = true)
    (h2 : ∀ r ∈ repos, uv (tagURI ru r) = true) :
    GetCatalog uv ru acct
        ⟨NetOutcome.resp 200 (Body.cat repos)
          :: ((imgs.map fun i => NetOutcome.resp 200 (Body.img i.Name i.Tags)) ++ rest), auths⟩
      = (Res.ok ⟨acct, ru, groupImages (repos.zip imgs) []⟩, ⟨rest, auths⟩,
         catURI ru :: repos.map (tagURI ru)) := by
  have hdo : doRequest uv "GET" (catURI ru)
      ⟨NetOutcome.resp 200 (Body.cat repos)
        :: ((imgs.map fun i => NetOutcome.resp 200 (Body.img i.Name i.Tags)) ++ rest), auths⟩
      = (Res.ok (Body.cat repos),
         ⟨(imgs.map fun i => NetOutcome.resp 200 (Body.img i.Name i.Tags)) ++ rest, auths⟩,
         [catURI ru]) := by
    simp [doRequest, h1]
  rw [GetCatalog, hdo]
  simp only [decodeCatalog]
  rw [fetchLoop_seq repos imgs uv ru rest auths [] hlen h2]
  simp

end RegistryUI

namespace RegistryUI

lemma doRequest_trace_elem (uv : String → Bool) (method uri : String) (w : World) :
    ∀ u ∈ (doRequest uv method uri w).2.2, u = uri := by
  intro u hu
  rcases w with ⟨rs, as⟩
  by_cases huv : uv uri = true
  · cases rs with
    | nil => simp [doRequest, huv] at hu; exact hu
    | cons o rest =>
      cases o with
      | netErr => simp [doRequest, huv] at hu; exact hu
      | resp st b =>
        by_cases hst : st = 401
        · subst hst
          cases as with
          | nil => simp [doRequest, huv] at hu; exact hu
          | cons aok arest =>
            cases aok with
            | false => simp [doRequest, huv] at hu; exact hu
            | true =>
              cases rest with
              | nil => simp [doRequest, huv] at hu; exact hu
              | cons o2 rest2 =>
                cases o2 with
                | netErr => simp [doRequest, huv] at hu; exact hu
                | resp st2 b2 => simp [doRequest, huv] at hu; exact hu
        · simp [doRequest, huv, hst] at hu; exact hu
  · simp [doRequest, huv] at hu

lemma doRequest_trace_shape (uv : String → Bool) (method uri : String) (w : World) :
    (doRequest uv method uri w).2.2 = []
      ∨ (doRequest uv method uri w).2.2 = [uri]
      ∨ (doRequest uv method uri w).2.2 = [uri, uri] := by
  rcases w with ⟨rs, as⟩
  by_cases huv : uv uri = true
  · cases rs with
    | nil => simp [doRequest, huv]
    | cons o rest =>
      cases o with
      | netErr => simp [doRequest, huv]
      | resp st b =>
        by_cases hst : st = 401
        · subst hst
          cases as with
          | nil => simp [doRequest, huv]
          | cons aok arest =>
            cases aok with
            | false => simp [doRequest, huv]
            | true =>
              cases rest with
              | nil => simp [doRequest, huv]
              | cons o2 rest2 => cases o2 <;> simp [doRequest, huv]
        · simp [doRequest, huv, hst]
  · simp [doRequest, huv]

lemma getTags_trace_eq (uv : String → Bool) (ru nm : String) (w : World) :
    (GetTags uv ru nm w).2.2 = (doRequest uv "GET" (tagURI ru nm) w).2.2 := by
  rw [GetTags]
  rcases h : doRequest uv "GET" (tagURI ru nm) w with ⟨res, w', tr⟩
  cases res with
  | fatal e => rfl
  | ok b =>
    cases hb : decodeImage b with
    | none => simp [hb]
    | some i => simp [hb]

lemma getTags_trace_elem (uv : String → Bool) (ru nm : String) (w : World) :
    ∀ u ∈ (GetTags uv ru nm w).2.2, u = tagURI ru nm := by
  rw [getTags_trace_eq]
  exact doRequest_trace_elem uv "GET" (tagURI ru nm) w

lemma fetchLoop_trace_elem (repos : List String) :
    ∀ (uv : String → Bool) (ru : String) (w : World) (m : Repos),
      ∀ u ∈ (fetchLoop uv ru repos w m).2.2, ∃ nm, u = tagURI ru nm := by
  induction repos with
  | nil => intro uv ru w m u hu; simp [fetchLoop] at hu
  | cons r rs ih =>
    intro uv ru w m u
    rw [fetchLoop]
    have hg := getTags_trace_elem uv ru r w
    rcases h : GetTags uv ru r w with ⟨res, w', tr⟩
    rw [h] at hg
    cases res with
    | fatal e =>
      intro hu
      exact ⟨r, hg u hu⟩
    | ok i =>
      dsimp only []
      have hf := ih uv ru w' (insertImage m (nsKey r) i) u
      rcases h2 : fetchLoop uv ru rs w' (insertImage m (nsKey r) i) with ⟨res2, w'', tr'⟩
      rw [h2] at hf
      dsimp only []
      intro hu
      rcases List.mem_append.mp hu with hl | hr
      · exact ⟨r, hg u hl⟩
      · exact hf hr

lemma getCatalog_trace_elem (uv : String → Bool) (ru : String) (acct : Bool) (w : World) :
    ∀ u ∈ (GetCatalog uv ru acct w).2.2,
      u = catURI ru ∨ ∃ nm, u = tagURI ru nm := by
  intro u
  rw [GetCatalog]
  have hd := doRequest_trace_elem uv "GET" (catURI ru) w
  rcases h : doRequest uv "GET" (catURI ru) w with ⟨res, w', tr⟩
  rw [h] at hd
  cases res with
  | fatal e =>
    intro hu
    exact Or.inl (hd u hu)
  | ok b =>
    dsimp only []
    rcases hb : decodeCatalog b with _ | repos
    · intro hu
      exact Or.inl (hd u hu)
    · dsimp only []
      have hf := fetchLoop_trace_elem repos uv ru w' [] u
      rcases h2 : fetchLoop uv ru repos w' [] with ⟨res2, w'', tr'⟩
      rw [h2] at hf
      cases res2 with
      | fatal e =>
        dsimp only []
        intro hu
        rcases List.mem_append.mp hu with hl | hr
        · exact Or.inl (hd u hl)
        · exact Or.inr (hf hr)
      | ok m =>
        dsimp only []
        intro hu
        rcases List.mem_append.mp hu with hl | hr
        · exact Or.inl (hd u hl)
        · exact Or.inr (hf hr)

end RegistryUI

namespace RegistryUI

/-- C1: for every repository list returned by the catalog endpoint, `GetCatalog`
partitions the input: the run succeeds with the grouped map, the total number of
images equals the length of the input list, the namespace keys are pairwise
distinct (each image sits under exactly one key), and each key holds exactly as
many images as there are input names mapping to it. -/
theorem getCatalog_partitions_input (uv : String → Bool) (ru : String) (acct : Bool)
    (repos : List String) (imgs : List image) (rest : List NetOutcome) (auths : List Bool)
    (hlen : imgs.length = repos.length)
    (h1 : uv (catURI ru) = true)
    (h2 : ∀ r ∈ repos, uv (tagURI ru r) = true) :
    GetCatalog uv ru acct
        ⟨NetOutcome.resp 200 (Body.cat repos)
          :: ((imgs.map fun i => NetOutcome.resp 200 (Body.img i.Name i.Tags)) ++ rest), auths⟩
      = (Res.ok ⟨acct, ru, groupImages (repos.zip imgs) []⟩, ⟨rest, auths⟩,
         catURI ru :: repos.map (tagURI ru))
    ∧ totalImages (groupImages (repos.zip imgs) []) = repos.length
    ∧ (keys (groupImages (repos.zip imgs) [])).Nodup
    ∧ ∀ k, (imagesAt (groupImages (repos.zip imgs) []) k).length
        = (repos.filter (fun r => nsKey r == k)).length := by
  refine ⟨getCatalog_seq uv ru acct repos imgs rest auths hlen h1 h2, ?_, ?_, ?_⟩
  · rw [totalImages_groupImages]
    simp [totalImages, List.length_zip, hlen]
  · exact keys_nodup_groupImages _ [] (by simp [keys])
  · intro k
    rw [imagesAt_groupImages]
    simp only [imagesAt, List.nil_append]
    exact zip_filter_length repos imgs k hlen.symm

theorem getCatalog_partitions_input_witness :
    totalImages (groupImages ((["library/nginx", "standalone"]).zip
        ([⟨"library/nginx", ["1.19", "latest"]⟩, ⟨"standalone", []⟩] : List image)) []) = 2 :=
  (getCatalog_partitions_input (fun _ => true) "registry.example" false
      ["library/nginx", "standalone"]
      [⟨"library/nginx", ["1.19", "latest"]⟩, ⟨"standalone", []⟩] [] []
      rfl rfl (fun _ _ => rfl)).2.1

/-- C2: `GetCatalog` groups a repository under the key that is the substring of
the name before the first slash, and under the sentinel key when the name has
no slash; in particular a repository named "library/nginx" is grouped under
"library" (with the image keeping the full name), and "standalone" under "-". -/
theorem getCatalog_namespace_key (uv : String → Bool) (ru : String) (acct : Bool)
    (r : String) (ts : List String) (rest : List NetOutcome) (auths : List Bool)
    (h1 : uv (catURI ru) = true) (h2 : uv (tagURI ru r) = true) :
    GetCatalog uv ru acct
        ⟨NetOutcome.resp 200 (Body.cat [r]) :: NetOutcome.resp 200 (Body.img r ts) :: rest, auths⟩
      = (Res.ok ⟨acct, ru,
          [(if r.data.contains '/' then (⟨r.data.takeWhile (fun c => c != '/')⟩ : String) else "-",
            [⟨r, ts⟩])]⟩,
         ⟨rest, auths⟩, [catURI ru, tagURI ru r])
    ∧ nsKey "library/nginx" = "library"
    ∧ nsKey "standalone" = "-" := by
  refine ⟨?_, by decide, by decide⟩
  have h := getCatalog_seq uv ru acct [r] [⟨r, ts⟩] rest auths rfl h1
    (by intro x hx; simp at hx; subst hx; exact h2)
  simpa [groupImages, insertImage, nsKey, List.zip] using h

theorem getCatalog_namespace_key_witness :
    nsKey "library/nginx" = "library" :=
  (getCatalog_namespace_key (fun _ => true) "r" false "library/nginx" ["latest"] [] []
      rfl rfl).2.1

end RegistryUI

namespace RegistryUI

/-- C3 counterexample: a direct 404 response is NOT surfaced as an error; its
body is returned as the success result of the call. -/
theorem get_returns_404_body_as_success :
    (Get (fun _ => true) "registry" "/v2/_catalog"
        ⟨[NetOutcome.resp 404 Body.bad], []⟩).1 = Res.ok Body.bad := by
  decide

/-- C3 amended: after the at-most-one authentication retry, the body of the
final response is returned as the success result regardless of its status
code — a first non-401 response of any status, and any second response after a
401 (including a second consecutive 401), have their bodies returned; no
HTTPError failure exists in the code. -/
theorem get_returns_final_body_regardless_of_status (uv : String → Bool) (ru path : String)
    (st st2 : Nat) (b b1 b2 : Body) (rest rest2 : List NetOutcome) (auths auths2 : List Bool)
    (h : uv ("http://" ++ ru ++ path) = true) (hst : st ≠ 401) :
    (Get uv ru path ⟨NetOutcome.resp st b :: rest, auths⟩).1 = Res.ok b
    ∧ (Get uv ru path
        ⟨NetOutcome.resp 401 b1 :: NetOutcome.resp st2 b2 :: rest2, true :: auths2⟩).1
      = Res.ok b2 := by
  constructor
  · simp [Get, doRequest, h, hst]
  · simp [Get, doRequest, h]

theorem get_returns_final_body_regardless_of_status_witness :
    (Get (fun _ => true) "registry" "/v2/_catalog"
        ⟨[NetOutcome.resp 404 (Body.cat [])], []⟩).1 = Res.ok (Body.cat [])
    ∧ (Get (fun _ => true) "registry" "/v2/_catalog"
        ⟨[NetOutcome.resp 401 Body.bad, NetOutcome.resp 401 (Body.cat ["x"])], [true]⟩).1
      = Res.ok (Body.cat ["x"]) :=
  get_returns_final_body_regardless_of_status (fun _ => true) "registry" "/v2/_catalog"
    404 401 (Body.cat []) Body.bad (Body.cat ["x"]) [] [] [] [] rfl (by decide)

/-- C4: a 401 response followed by a successful authentication and a 200
response with some body yields exactly the same result as a direct 200
response with that body (retry transparency). -/
theorem get_retry_transparent (uv : String → Bool) (ru path : String) (cb b : Body)
    (rest rest2 : List NetOutcome) (auths auths2 : List Bool)
    (h : uv ("http://" ++ ru ++ path) = true) :
    (Get uv ru path ⟨NetOutcome.resp 401 cb :: NetOutcome.resp 200 b :: rest, true :: auths⟩).1
      = (Get uv ru path ⟨NetOutcome.resp 200 b :: rest2, auths2⟩).1 := by
  simp [Get, doRequest, h]

theorem get_retry_transparent_witness :
    (Get (fun _ => true) "registry" "/v2/_catalog"
        ⟨[NetOutcome.resp 401 Body.bad, NetOutcome.resp 200 (Body.cat ["a"])], [true]⟩).1
      = (Get (fun _ => true) "registry" "/v2/_catalog"
          ⟨[NetOutcome.resp 200 (Body.cat ["a"])], []⟩).1 :=
  get_retry_transparent (fun _ => true) "registry" "/v2/_catalog" Body.bad (Body.cat ["a"])
    [] [] [] [] rfl

/-- Whether the first pending response of the world is a 401 (the only
condition under which `doRequest` enters its retry). -/
def firstRespIs401 (w : World) : Bool :=
  match w.responses with
  | NetOutcome.resp st _ :: _ => st == 401
  | _ => false

/-- C5: a single `doRequest` call executes at most two HTTP requests, and a
second request happens only when the first response was a 401 and the (single)
authentication attempt succeeded; there is no other retry. -/
theorem doRequest_at_most_one_retry (uv : String → Bool) (method uri : String) (w : World) :
    (doRequest uv method uri w).2.2.length ≤ 2
    ∧ ((doRequest uv method uri w).2.2.length = 2 →
        firstRespIs401 w = true ∧ w.auths.headD false = true) := by
  constructor
  · rcases doRequest_trace_shape uv method uri w with h | h | h <;> simp [h]
  · rcases w with ⟨rs, as⟩
    by_cases huv : uv uri = true
    · cases rs with
      | nil => intro h2; simp [doRequest, huv] at h2
      | cons o rest =>
        cases o with
        | netErr => intro h2; simp [doRequest, huv] at h2
        | resp st b =>
          by_cases hst : st = 401
          · subst hst
            cases as with
            | nil => intro h2; simp [doRequest, huv] at h2
            | cons aok arest =>
              cases aok with
              | false => intro h2; simp [doRequest, huv] at h2
              | true =>
                intro _
                exact ⟨by simp [firstRespIs401], by simp⟩
          · intro h2; simp [doRequest, huv, hst] at h2
    · intro h2; simp [doRequest, huv] at h2

theorem doRequest_at_most_one_retry_witness :
    firstRespIs401 ⟨[NetOutcome.resp 401 Body.bad, NetOutcome.resp 200 Body.bad], [true]⟩ = true
    ∧ (⟨[NetOutcome.resp 401 Body.bad, NetOutcome.resp 200 Body.bad], [true]⟩
        : World).auths.headD false = true :=
  (doRequest_at_most_one_retry (fun _ => true) "GET" "http://r/v2/_catalog"
      ⟨[NetOutcome.resp 401 Body.bad, NetOutcome.resp 200 Body.bad], [true]⟩).2 (by decide)

end RegistryUI

namespace RegistryUI

lemma catURI_ne_tagURI (ru nm : String) : catURI ru ≠ tagURI ru nm := by
  intro h
  have hd := congrArg (fun s : String => s.data.getLast?) h
  simp only [catURI, tagURI, String.data_append, List.getLast?_append] at hd
  simp [List.getLast?] at hd

/-- C6: when the body of the catalog-list response does not decode as
`{repositories: [string]}`, `GetCatalog` aborts with the fatal decode error,
produces no catalog value, and issues zero tag-list requests (the trace holds
only the one catalog-list URL). -/
theorem getCatalog_decode_failure_aborts (uv : String → Bool) (ru : String) (acct : Bool)
    (b : Body) (rest : List NetOutcome) (auths : List Bool)
    (h1 : uv (catURI ru) = true) (hb : decodeCatalog b = none) :
    GetCatalog uv ru acct ⟨NetOutcome.resp 200 b :: rest, auths⟩
      = (Res.fatal "marshalling result: err", ⟨rest, auths⟩, [catURI ru])
    ∧ ∀ nm, tagURI ru nm ∉ (GetCatalog uv ru acct ⟨NetOutcome.resp 200 b :: rest, auths⟩).2.2 := by
  have heq : GetCatalog uv ru acct ⟨NetOutcome.resp 200 b :: rest, auths⟩
      = (Res.fatal "marshalling result: err", ⟨rest, auths⟩, [catURI ru]) := by
    have hdo : doRequest uv "GET" (catURI ru) ⟨NetOutcome.resp 200 b :: rest, auths⟩
        = (Res.ok b, ⟨rest, auths⟩, [catURI ru]) := by
      simp [doRequest, h1]
    rw [GetCatalog, hdo]
    dsimp only []
    rw [hb]
  refine ⟨heq, ?_⟩
  intro nm hmem
  rw [heq] at hmem
  simp at hmem
  exact catURI_ne_tagURI ru nm hmem.symm

theorem getCatalog_decode_failure_aborts_witness :
    GetCatalog (fun _ => true) "registry" false ⟨[NetOutcome.resp 200 Body.bad], []⟩
      = (Res.fatal "marshalling result: err", ⟨[], []⟩, [catURI "registry"]) :=
  (getCatalog_decode_failure_aborts (fun _ => true) "registry" false Body.bad [] []
      rfl rfl).1

/-- C7: the tag-list requests are issued sequentially in input order (the
request trace is the catalog-list URL followed by one tags-list URL per input
repository name, in that exact order), and within each namespace key the
images appear in the same relative order as their repository names did in the
input list. -/
theorem getCatalog_sequential_and_ordered (uv : String → Bool) (ru : String) (acct : Bool)
    (repos : List String) (imgs : List image) (rest : List NetOutcome) (auths : List Bool)
    (hlen : imgs.length = repos.length)
    (h1 : uv (catURI ru) = true)
    (h2 : ∀ r ∈ repos, uv (tagURI ru r) = true) :
    GetCatalog uv ru acct
        ⟨NetOutcome.resp 200 (Body.cat repos)
          :: ((imgs.map fun i => NetOutcome.resp 200 (Body.img i.Name i.Tags)) ++ rest), auths⟩
      = (Res.ok ⟨acct, ru, groupImages (repos.zip imgs) []⟩, ⟨rest, auths⟩,
         catURI ru :: repos.map (tagURI ru))
    ∧ ∀ k, imagesAt (groupImages (repos.zip imgs) []) k
        = ((repos.zip imgs).filter (fun p => nsKey p.1 == k)).map Prod.snd := by
  refine ⟨getCatalog_seq uv ru acct repos imgs rest auths hlen h1 h2, ?_⟩
  intro k
  rw [imagesAt_groupImages]
  simp [imagesAt]

theorem getCatalog_sequential_and_ordered_witness :
    imagesAt (groupImages ((["library/nginx", "library/redis", "standalone"]).zip
        ([⟨"library/nginx", ["1"]⟩, ⟨"library/redis", ["2"]⟩, ⟨"standalone", []⟩] : List image))
        []) "library"
      = [⟨"library/nginx", ["1"]⟩, ⟨"library/redis", ["2"]⟩] := by
  have h := (getCatalog_sequential_and_ordered (fun _ => true) "r" false
      ["library/nginx", "library/redis", "standalone"]
      [⟨"library/nginx", ["1"]⟩, ⟨"library/redis", ["2"]⟩, ⟨"standalone", []⟩] [] []
      rfl rfl (fun _ _ => rfl)).2 "library"
  rw [h]
  decide

lemma doRequest_sends_first (uv : String → Bool) (method uri : String) (w : World)
    (huv : uv uri = true) (hne : w.responses ≠ []) :
    (doRequest uv method uri w).2.2 ≠ [] := by
  rcases w with ⟨rs, as⟩
  cases rs with
  | nil => simp at hne
  | cons o rest =>
    cases o with
    | netErr => simp [doRequest, huv]
    | resp st b =>
      by_cases hst : st = 401
      · subst hst
        cases as with
        | nil => simp [doRequest, huv]
        | cons aok arest =>
          cases aok with
          | false => simp [doRequest, huv]
          | true =>
            cases rest with
            | nil => simp [doRequest, huv]
            | cons o2 rest2 => cases o2 <;> simp [doRequest, huv]
      · simp [doRequest, huv, hst]

/-- C8 counterexample: with an empty path, the URL is the well-formed
`http://` + registry URI, a request IS sent (nonempty trace) and the call even
succeeds — contradicting "empty paths fail with a construction error before
any network I/O". -/
theorem get_empty_path_sends_request :
    (Get (fun _ => true) "example.com" "" ⟨[NetOutcome.resp 200 (Body.cat [])], []⟩).2.2
        = ["http://example.com"]
    ∧ (Get (fun _ => true) "example.com" "" ⟨[NetOutcome.resp 200 (Body.cat [])], []⟩).1
        = Res.ok (Body.cat []) := by
  constructor
  · decide
  · decide

/-- C8 amended: an empty path yields the well-formed URL `http://` +
registryURI and an HTTP request is sent; only when URL construction itself
fails is no request sent before the call dies, and that death is not a
surfaced construction error: `http.NewRequest`'s error is shadowed, and
executing the nil request dereferences it and panics before any network
I/O (and before the `err != nil` check). -/
theorem get_path_construction_behavior (uv : String → Bool) (ru path : String) (w : World) :
    (uv ("http://" ++ ru ++ "") = true → w.responses ≠ [] → (Get uv ru "" w).2.2 ≠ [])
    ∧ (uv ("http://" ++ ru ++ path) = false →
        Get uv ru path w
          = (Res.fatal "panic: runtime error: invalid memory address or nil pointer dereference",
             w, [])) := by
  constructor
  · intro h hne
    exact doRequest_sends_first uv "GET" ("http://" ++ ru ++ "") w h hne
  · intro h
    simp [Get, doRequest, h]

theorem get_path_construction_behavior_witness :
    (Get (fun _ => true) "example.com" "" ⟨[NetOutcome.resp 200 Body.bad], []⟩).2.2 ≠ []
    ∧ Get (fun _ => false) "example.com" "/v2/_catalog" ⟨[], []⟩
        = (Res.fatal "panic: runtime error: invalid memory address or nil pointer dereference",
           ⟨[], []⟩, []) :=
  ⟨(get_path_construction_behavior (fun _ => true) "example.com" "x"
      ⟨[NetOutcome.resp 200 Body.bad], []⟩).1 rfl (by decide),
   (get_path_construction_behavior (fun _ => false) "example.com" "/v2/_catalog"
      ⟨[], []⟩).2 rfl⟩

/-- C9: the Name and Tags of the image placed in the catalog come entirely
from the JSON body of the tags-list response — an arbitrary name field `n` in
the body yields an image named `n` whatever repository `nm` was asked for, an
absent name field yields the zero value — while the grouping key is derived
from the catalog-list repository name, so the image's name can differ from
the repository name it is grouped under. -/
theorem getTags_fields_from_body (uv : String → Bool) (ru nm n : String)
    (ts rs2 : List String) (acct : Bool)
    (rest rest2 rest3 : List NetOutcome) (auths auths2 auths3 : List Bool)
    (h1 : uv (catURI ru) = true) (h2 : uv (tagURI ru nm) = true) :
    (GetTags uv ru nm ⟨NetOutcome.resp 200 (Body.img n ts) :: rest, auths⟩).1 = Res.ok ⟨n, ts⟩
    ∧ (GetTags uv ru nm ⟨NetOutcome.resp 200 (Body.cat rs2) :: rest2, auths2⟩).1
        = Res.ok ⟨"", []⟩
    ∧ GetCatalog uv ru acct
        ⟨NetOutcome.resp 200 (Body.cat [nm]) :: NetOutcome.resp 200 (Body.img n ts) :: rest3,
         auths3⟩
      = (Res.ok ⟨acct, ru, [(nsKey nm, [⟨n, ts⟩])]⟩, ⟨rest3, auths3⟩,
         [catURI ru, tagURI ru nm]) := by
  refine ⟨?_, ?_, ?_⟩
  · simp [GetTags, doRequest, h2, decodeImage]
  · simp [GetTags, doRequest, h2, decodeImage]
  · have h := getCatalog_seq uv ru acct [nm] [⟨n, ts⟩] rest3 auths3 rfl h1
      (by intro x hx; simp at hx; subst hx; exact h2)
    simpa [groupImages, insertImage, List.zip] using h

theorem getTags_fields_from_body_witness :
    GetCatalog (fun _ => true) "r" false
        ⟨[NetOutcome.resp 200 (Body.cat ["library/nginx"]),
          NetOutcome.resp 200 (Body.img "other-name" ["latest"])], []⟩
      = (Res.ok ⟨false, "r", [(nsKey "library/nginx", [⟨"other-name", ["latest"]⟩])]⟩,
         ⟨[], []⟩, [catURI "r", tagURI "r" "library/nginx"]) :=
  (getTags_fields_from_body (fun _ => true) "r" "library/nginx" "other-name"
      ["latest"] [] false [] [] [] [] [] [] rfl rfl).2.2

/-- C10: every URL in the request trace of a `GetCatalog` run — successful or
not — is the literal concatenation "http://" + registryURI + path, with the
path either the catalog-list path or a tags-list path; the scheme is always
plain http. -/
theorem getCatalog_urls_literal_concat (uv : String → Bool) (ru : String) (acct : Bool)
    (w : World) :
    ∀ u ∈ (GetCatalog uv ru acct w).2.2,
      ∃ path, u = "http://" ++ ru ++ path
        ∧ (path = "/v2/_catalog" ∨ ∃ nm, path = "/v2/" ++ nm ++ "/tags/list") := by
  intro u hu
  rcases getCatalog_trace_elem uv ru acct w u hu with h | ⟨nm, h⟩
  · exact ⟨"/v2/_catalog", h, Or.inl rfl⟩
  · refine ⟨"/v2/" ++ nm ++ "/tags/list", ?_, Or.inr ⟨nm, rfl⟩⟩
    rw [h, tagURI]
    rw [String.append_assoc ("http://" ++ ru) "/v2/" nm,
        String.append_assoc ("http://" ++ ru) ("/v2/" ++ nm) "/tags/list"]

theorem getCatalog_urls_literal_concat_witness :
    ∃ path, "http://r/v2/_catalog" = "http://" ++ "r" ++ path
      ∧ (path = "/v2/_catalog" ∨ ∃ nm, path = "/v2/" ++ nm ++ "/tags/list") :=
  getCatalog_urls_literal_concat (fun _ => true) "r" false
    ⟨[NetOutcome.resp 200 Body.bad], []⟩ "http://r/v2/_catalog" (by decide)

end RegistryUI
